import Mathlib

/-!
Verification of the echion frame-resolution core (src/echion/frame.h,
src/echion/strings.h, src/echion/render.h) against its specification.

The C++ sources are shallowly embedded as executable Lean functions.
Machine integers are modelled as `Nat`/`Int` with explicit reductions
modulo 2^32 where the source uses `unsigned int` arithmetic.  Byte-table
accesses go through a checked reader (`byteAt`) that returns a distinct
`Fault.oob` value when an index is outside the table, so that "the
decoder never reads past the end of the table" is a provable statement
rather than a modelling assumption.  Loops are embedded as structural
recursion on an explicit fuel argument; a `Fault.fuel` outcome marks
fuel exhaustion, and lemmas below show that the fuel chosen by the
top-level entry points never runs out, so the embedding is total in
exactly the way the C++ loops are.
-/

/-- Failure outcomes of the location decoders of `Frame::infer_location`.
`locationError` models a thrown `Frame::LocationError`; `oob` marks a byte
read past the end of the table (undefined behaviour in the C++); `fuel`
marks exhaustion of the recursion fuel (proved unreachable below). -/
inductive Fault where
  | locationError
  | oob
  | fuel
deriving DecidableEq, Repr

/-- The `Frame::_location` struct of frame.h: line/column range, C `int` fields. -/
structure Location where
  line : Int
  line_end : Int
  column : Int
  column_end : Int
deriving DecidableEq, Repr

deriving instance DecidableEq for Except

/-- Checked byte access: `table[i]` with an explicit out-of-bounds fault. -/
def byteAt (t : List Nat) (i : Nat) : Except Fault Nat :=
  match t[i]? with
  | some b => Except.ok b
  | none => Except.error Fault.oob

/-- Reduction of an `unsigned int` value (C arithmetic modulo 2^32). -/
def u32 (z : Int) : Nat :=
  (z % 4294967296).toNat

/-- Conversion of an `unsigned int` value to a C `int` (wrap at 2^31, as gcc does). -/
def toInt32 (n : Nat) : Int :=
  let m := n % 4294967296
  if m < 2147483648 then (m : Int) else (m : Int) - 4294967296

/-- The `while` loop of `_read_varint` (frame.h).  The C++ loop condition is
`table[*i] & 64 && *i < guard`; the fuel argument `k` equals `guard - i`, so
`k = 0` exactly when `*i < guard` fails.  Returns the accumulated value and
the final index. -/
def varintAux (t : List Nat) : Nat → Nat → Nat → Nat → Except Fault (Nat × Nat)
  | 0, val, _shift, i =>
    match byteAt t i with
    | Except.error e => Except.error e
    | Except.ok _ => Except.ok (val, i)
  | k + 1, val, shift, i =>
    match byteAt t i with
    | Except.error e => Except.error e
    | Except.ok b =>
      if b &&& 64 ≠ 0 then
        match byteAt t (i + 1) with
        | Except.error e => Except.error e
        | Except.ok b1 =>
          varintAux t k (val ||| ((b1 &&& 63) <<< (shift + 6))) (shift + 6) (i + 1)
      else
        Except.ok (val, i)

/-- `_read_varint` of frame.h: `guard = size - 1`; if `*i >= guard` it returns 0
without touching the index, otherwise it reads `table[++*i] & 63` and chains
6-bit continuation groups.  Returns the value and the updated index `*i`. -/
def readVarint (t : List Nat) (i : Nat) : Except Fault (Nat × Nat) :=
  let guard := t.length - 1
  if i ≥ guard then
    Except.ok (0, i)
  else
    match byteAt t (i + 1) with
    | Except.error e => Except.error e
    | Except.ok b => varintAux t (guard - (i + 1)) (b &&& 63) 0 (i + 1)

/-- `_read_signed_varint` of frame.h: low bit of the payload is the sign. -/
def readSignedVarint (t : List Nat) (i : Nat) : Except Fault (Int × Nat) :=
  match readVarint t i with
  | Except.error e => Except.error e
  | Except.ok (val, i1) =>
    Except.ok (if val &&& 1 ≠ 0 then -((val >>> 1 : Nat) : Int) else ((val >>> 1 : Nat) : Int), i1)

/-- One iteration body of the `PY_VERSION_HEX >= 0x030b0000` loop of
`Frame::infer_location` (frame.h): reads the entry byte at `i`, dispatches on
the entry kind `(table[i] >> 3) & 15`, and returns the updated index, the
bytecode-delta contribution `(table[i] & 7) + 1`, the updated running
`lineno` (an `unsigned int`) and the updated `location`. -/
def step (t : List Nat) (i : Nat) (ln : Nat) (loc : Location) :
    Except Fault (Nat × Nat × Nat × Location) :=
  match byteAt t i with
  | Except.error e => Except.error e
  | Except.ok b =>
    let bcAdd := (b &&& 7) + 1
    let c := (b >>> 3) &&& 15
    if c = 15 then
      Except.ok (i, bcAdd, ln, loc)
    else if c = 14 then
      match readSignedVarint t i with
      | Except.error e => Except.error e
      | Except.ok (d, i1) =>
        let ln1 := u32 ((ln : Int) + d)
        match readVarint t i1 with
        | Except.error e => Except.error e
        | Except.ok (e1, i2) =>
          match readVarint t i2 with
          | Except.error e => Except.error e
          | Except.ok (cl, i3) =>
            match readVarint t i3 with
            | Except.error e => Except.error e
            | Except.ok (ce, i4) =>
              Except.ok (i4, bcAdd, ln1,
                { line := toInt32 ln1,
                  line_end := toInt32 ((ln1 + e1) % 4294967296),
                  column := (cl : Int),
                  column_end := (ce : Int) })
    else if c = 13 then
      match readSignedVarint t i with
      | Except.error e => Except.error e
      | Except.ok (d, i1) =>
        let ln1 := u32 ((ln : Int) + d)
        Except.ok (i1, bcAdd, ln1,
          { line := toInt32 ln1, line_end := toInt32 ln1, column := 0, column_end := 0 })
    else if 10 ≤ c then
      if (i : Int) ≥ (t.length : Int) - 2 then
        Except.error Fault.locationError
      else
        match byteAt t (i + 1) with
        | Except.error e => Except.error e
        | Except.ok b1 =>
          match byteAt t (i + 2) with
          | Except.error e => Except.error e
          | Except.ok b2 =>
            let ln1 := (ln + (c - 10)) % 4294967296
            Except.ok (i + 2, bcAdd, ln1,
              { line := toInt32 ln1, line_end := toInt32 ln1,
                column := 1 + (b1 : Int), column_end := 1 + (b2 : Int) })
    else
      if (i : Int) ≥ (t.length : Int) - 1 then
        Except.error Fault.locationError
      else
        match byteAt t (i + 1) with
        | Except.error e => Except.error e
        | Except.ok nb =>
          let col : Int := 1 + ((c <<< 3 : Nat) : Int) + (((nb >>> 4) &&& 7 : Nat) : Int)
          Except.ok (i + 1, bcAdd, ln,
            { line := toInt32 ln, line_end := toInt32 ln,
              column := col, column_end := col + ((nb &&& 15 : Nat) : Int) })

/-- The `for (Py_ssize_t i = 0, bc = 0; i < len; i++)` loop of the
`PY_VERSION_HEX >= 0x030b0000` branch of `Frame::infer_location`, with
explicit fuel (one unit per iteration).  Returns the final `lineno` and the
final in-loop `location`. -/
def locAux (t : List Nat) (lasti : Int) :
    Nat → Nat → Nat → Nat → Location → Except Fault (Nat × Location)
  | 0, i, _bc, ln, loc =>
    if i < t.length then Except.error Fault.fuel else Except.ok (ln, loc)
  | fuel + 1, i, bc, ln, loc =>
    if i < t.length then
      match step t i ln loc with
      | Except.error e => Except.error e
      | Except.ok (i1, bcAdd, ln1, loc1) =>
        let bc1 := bc + bcAdd
        if (bc1 : Int) > lasti then
          Except.ok (ln1, loc1)
        else
          locAux t lasti fuel (i1 + 1) bc1 ln1 loc1
    else
      Except.ok (ln, loc)

/-- `Frame::infer_location` for the `PY_VERSION_HEX >= 0x030b0000` generation
(variable-length-integer location table).  `firstlineno` is `co_firstlineno`
(a C `int`), the running `lineno` an `unsigned int`.  After the decoding loop
the function body (frame.h, the assignments following the `#endif`)
unconditionally overwrites the location with
`line = line_end = lineno, column = column_end = 0`. -/
def inferLocation (t : List Nat) (firstlineno : Int) (lasti : Int) : Except Fault Location :=
  match locAux t lasti t.length 0 0 (u32 firstlineno) ⟨0, 0, 0, 0⟩ with
  | Except.error e => Except.error e
  | Except.ok (ln, _loc) =>
    Except.ok { line := toInt32 ln, line_end := toInt32 ln, column := 0, column_end := 0 }

/-- The `location` value as left by the decoding loop itself, before the
trailing overwrite (same loop as `inferLocation`, exposing the other
component). -/
def inferLocationPre (t : List Nat) (firstlineno : Int) (lasti : Int) : Except Fault Location :=
  match locAux t lasti t.length 0 0 (u32 firstlineno) ⟨0, 0, 0, 0⟩ with
  | Except.error e => Except.error e
  | Except.ok (_ln, loc) => Except.ok loc

/-- The loop of the legacy (`co_lnotab`, Python < 3.10) branch of
`Frame::infer_location`:
`bc += table[i++]; if (bc > lasti) break; if (table[i] >= 0x80) lineno -= 0x100;
lineno += table[i];` with the `for` increment advancing `i` once more.  Note
that when the table has odd length the read of `table[i]` after the first
byte of a pair is past the end of the table.  Fuel is one unit per
iteration. -/
def legacyAux (t : List Nat) (lasti : Int) : Nat → Nat → Nat → Nat → Except Fault Nat
  | 0, i, _bc, ln =>
    if i < t.length then Except.error Fault.fuel else Except.ok ln
  | fuel + 1, i, bc, ln =>
    if i < t.length then
      match byteAt t i with
      | Except.error e => Except.error e
      | Except.ok b0 =>
        let bc1 := bc + b0
        if (bc1 : Int) > lasti then
          Except.ok ln
        else
          match byteAt t (i + 1) with
          | Except.error e => Except.error e
          | Except.ok b1 =>
            let ln1 := if 128 ≤ b1 then (ln + 4294967296 - 256) % 4294967296 else ln
            let ln2 := (ln1 + b1) % 4294967296
            legacyAux t lasti fuel (i + 2) bc1 ln2
    else
      Except.ok ln

/-- `Frame::infer_location` for the legacy generation (Python < 3.10): the
decoding loop followed by the trailing
`line = line_end = lineno, column = column_end = 0` assignment. -/
def inferLocationLegacy (t : List Nat) (firstlineno : Int) (lasti : Int) : Except Fault Location :=
  match legacyAux t lasti t.length 0 0 (u32 firstlineno) with
  | Except.error e => Except.error e
  | Except.ok ln =>
    Except.ok { line := toInt32 ln, line_end := toInt32 ln, column := 0, column_end := 0 }

/-- The loop of the `PY_VERSION_HEX >= 0x030a0000` (Python 3.10, delta-pair)
branch of `Frame::infer_location`:
`int sdelta = table[i++]; if (sdelta == 0xff) break; bc += sdelta;
int ldelta = table[i]; if (ldelta == 0x80) ldelta = 0; else if (ldelta > 0x80)
lineno -= 0x100; lineno += ldelta; if (bc > lasti) break;`.  As in the legacy
branch, an odd-length table makes the `table[i]` read go past the end. -/
def delta310Aux (t : List Nat) (lasti2 : Int) : Nat → Nat → Nat → Nat → Except Fault Nat
  | 0, i, _bc, ln =>
    if i < t.length then Except.error Fault.fuel else Except.ok ln
  | fuel + 1, i, bc, ln =>
    if i < t.length then
      match byteAt t i with
      | Except.error e => Except.error e
      | Except.ok sdelta =>
        if sdelta = 255 then
          Except.ok ln
        else
          let bc1 := bc + sdelta
          match byteAt t (i + 1) with
          | Except.error e => Except.error e
          | Except.ok ld =>
            let ln1 :=
              if ld = 128 then ln
              else if 128 < ld then (ln + 4294967296 - 256 + ld) % 4294967296
              else (ln + ld) % 4294967296
            if (bc1 : Int) > lasti2 then
              Except.ok ln1
            else
              delta310Aux t lasti2 fuel (i + 2) bc1 ln1
    else
      Except.ok ln

/-- `Frame::infer_location` for the Python 3.10 generation: `lasti <<= 1`
before the loop, then the loop, then the trailing overwrite. -/
def inferLocation310 (t : List Nat) (firstlineno : Int) (lasti : Int) : Except Fault Location :=
  match delta310Aux t (lasti * 2) t.length 0 0 (u32 firstlineno) with
  | Except.error e => Except.error e
  | Except.ok ln =>
    Except.ok { line := toInt32 ln, line_end := toInt32 ln, column := 0, column_end := 0 }

/-- A byte access inside the table succeeds. -/
theorem byteAt_ok (t : List Nat) (i : Nat) (h : i < t.length) :
    byteAt t i = Except.ok t[i] := by
  simp [byteAt, List.getElem?_eq_getElem h]

/-- The varint continuation loop never faults while its fuel keeps every
access inside the table. -/
theorem varintAux_ok (t : List Nat) :
    ∀ (k v s i : Nat), i + k < t.length → ∃ r, varintAux t k v s i = Except.ok r := by
  intro k
  induction k with
  | zero =>
    intro v s i h
    refine ⟨(v, i), ?_⟩
    simp [varintAux, byteAt_ok t i (by omega)]
  | succ k ih =>
    intro v s i h
    have hb := byteAt_ok t i (by omega)
    by_cases hc : t[i] &&& 64 ≠ 0
    · have hb1 := byteAt_ok t (i + 1) (by omega)
      obtain ⟨r, hr⟩ := ih (v ||| ((t[i + 1] &&& 63) <<< (s + 6))) (s + 6) (i + 1) (by omega)
      refine ⟨r, ?_⟩
      simp only [varintAux, hb]
      rw [if_pos hc, hb1]
      exact hr
    · refine ⟨(v, i), ?_⟩
      simp only [varintAux, hb]
      rw [if_neg hc]

/-- The varint continuation loop never moves the index backwards. -/
theorem varintAux_mono (t : List Nat) :
    ∀ (k v s i : Nat) (r : Nat × Nat), varintAux t k v s i = Except.ok r → i ≤ r.2 := by
  intro k
  induction k with
  | zero =>
    intro v s i r h
    cases hb : byteAt t i with
    | error e => simp [varintAux, hb] at h
    | ok b =>
      simp only [varintAux, hb] at h
      cases h
      exact Nat.le_refl i
  | succ k ih =>
    intro v s i r h
    cases hb : byteAt t i with
    | error e => simp [varintAux, hb] at h
    | ok b =>
      simp only [varintAux, hb] at h
      by_cases hc : b &&& 64 ≠ 0
      · rw [if_pos hc] at h
        cases hb1 : byteAt t (i + 1) with
        | error e => simp [hb1] at h
        | ok b1 =>
          simp only [hb1] at h
          have := ih _ _ _ _ h
          omega
      · rw [if_neg hc] at h
        cases h
        exact Nat.le_refl i

/-- `_read_varint` never faults: its guard keeps every access inside the table. -/
theorem readVarint_ok (t : List Nat) (i : Nat) : ∃ r, readVarint t i = Except.ok r := by
  unfold readVarint
  by_cases h : i ≥ t.length - 1
  · exact ⟨(0, i), by simp [h]⟩
  · have hlt : i + 1 < t.length := by omega
    have hb := byteAt_ok t (i + 1) hlt
    obtain ⟨r, hr⟩ := varintAux_ok t (t.length - 1 - (i + 1)) (t[i + 1] &&& 63) 0 (i + 1) (by omega)
    exact ⟨r, by simp only [h, if_false, hb]; exact hr⟩

/-- `_read_varint` never moves the index backwards. -/
theorem readVarint_mono (t : List Nat) (i : Nat) (r : Nat × Nat)
    (h : readVarint t i = Except.ok r) : i ≤ r.2 := by
  unfold readVarint at h
  by_cases hg : i ≥ t.length - 1
  · simp only [hg, if_true] at h
    cases h
    exact Nat.le_refl i
  · simp only [hg, if_false] at h
    cases hb : byteAt t (i + 1) with
    | error e => rw [hb] at h; cases h
    | ok b =>
      rw [hb] at h
      have := varintAux_mono t _ _ _ _ _ h
      omega

/-- `_read_signed_varint` never faults. -/
theorem readSignedVarint_ok (t : List Nat) (i : Nat) :
    ∃ r, readSignedVarint t i = Except.ok r := by
  obtain ⟨⟨v, i1⟩, hr⟩ := readVarint_ok t i
  refine ⟨((if v &&& 1 ≠ 0 then -((v >>> 1 : Nat) : Int) else ((v >>> 1 : Nat) : Int)), i1), ?_⟩
  simp only [readSignedVarint, hr]

/-- `_read_signed_varint` never moves the index backwards. -/
theorem readSignedVarint_mono (t : List Nat) (i : Nat) (r : Int × Nat)
    (h : readSignedVarint t i = Except.ok r) : i ≤ r.2 := by
  unfold readSignedVarint at h
  cases hr : readVarint t i with
  | error e => rw [hr] at h; cases h
  | ok p =>
    rw [hr] at h
    cases h
    exact readVarint_mono t i p hr

/-- One loop iteration of the varint-table decoder either throws
`LocationError` or succeeds without moving the index backwards; in
particular it never reads past the end of the table and never exhausts
fuel. -/
theorem step_cases (t : List Nat) (i ln : Nat) (loc : Location) (h : i < t.length) :
    step t i ln loc = Except.error Fault.locationError ∨
    ∃ i1 bcAdd ln1 loc1, step t i ln loc = Except.ok (i1, bcAdd, ln1, loc1) ∧ i ≤ i1 := by
  have hb := byteAt_ok t i h
  simp only [step, hb]
  by_cases h15 : (t[i] >>> 3) &&& 15 = 15
  · rw [if_pos h15]
    exact Or.inr ⟨i, _, ln, loc, rfl, Nat.le_refl i⟩
  · rw [if_neg h15]
    by_cases h14 : (t[i] >>> 3) &&& 15 = 14
    · rw [if_pos h14]
      obtain ⟨⟨d, i1⟩, h1⟩ := readSignedVarint_ok t i
      simp only [h1]
      obtain ⟨⟨e1, i2⟩, h2⟩ := readVarint_ok t i1
      simp only [h2]
      obtain ⟨⟨cl, i3⟩, h3⟩ := readVarint_ok t i2
      simp only [h3]
      obtain ⟨⟨ce, i4⟩, h4⟩ := readVarint_ok t i3
      simp only [h4]
      refine Or.inr ⟨i4, _, _, _, rfl, ?_⟩
      have m1 := readSignedVarint_mono t i _ h1
      have m2 := readVarint_mono t i1 _ h2
      have m3 := readVarint_mono t i2 _ h3
      have m4 := readVarint_mono t i3 _ h4
      simp only at m1 m2 m3 m4
      omega
    · rw [if_neg h14]
      by_cases h13 : (t[i] >>> 3) &&& 15 = 13
      · rw [if_pos h13]
        obtain ⟨⟨d, i1⟩, h1⟩ := readSignedVarint_ok t i
        simp only [h1]
        refine Or.inr ⟨i1, _, _, _, rfl, ?_⟩
        have m1 := readSignedVarint_mono t i _ h1
        simpa using m1
      · rw [if_neg h13]
        by_cases h10 : 10 ≤ (t[i] >>> 3) &&& 15
        · rw [if_pos h10]
          by_cases hg : (i : Int) ≥ (t.length : Int) - 2
          · rw [if_pos hg]
            exact Or.inl rfl
          · rw [if_neg hg]
            have hb1 := byteAt_ok t (i + 1) (by omega)
            have hb2 := byteAt_ok t (i + 2) (by omega)
            simp only [hb1, hb2]
            exact Or.inr ⟨i + 2, _, _, _, rfl, by omega⟩
        · rw [if_neg h10]
          by_cases hg : (i : Int) ≥ (t.length : Int) - 1
          · rw [if_pos hg]
            exact Or.inl rfl
          · rw [if_neg hg]
            have hb1 := byteAt_ok t (i + 1) (by omega)
            simp only [hb1]
            exact Or.inr ⟨i + 1, _, _, _, rfl, by omega⟩

/-- The varint-table decoding loop never reads a byte past the end of the
table, whatever the table, offset and fuel. -/
theorem locAux_no_oob (t : List Nat) (lasti : Int) :
    ∀ (fuel i bc ln : Nat) (loc : Location),
      locAux t lasti fuel i bc ln loc ≠ Except.error Fault.oob := by
  intro fuel
  induction fuel with
  | zero =>
    intro i bc ln loc
    simp only [locAux]
    by_cases h : i < t.length
    · simp [h]
    · simp [h]
  | succ fuel ih =>
    intro i bc ln loc
    simp only [locAux]
    by_cases h : i < t.length
    · rw [if_pos h]
      rcases step_cases t i ln loc h with hs | ⟨i1, bcAdd, ln1, loc1, hs, _⟩
      · simp [hs]
      · simp only [hs]
        split
        · simp
        · exact ih (i1 + 1) (bc + bcAdd) ln1 loc1
    · simp [h]

/-- With fuel at least `t.length - i` the varint-table decoding loop never
exhausts its fuel (each iteration advances the index by at least one). -/
theorem locAux_no_fuel (t : List Nat) (lasti : Int) :
    ∀ (fuel i bc ln : Nat) (loc : Location), t.length ≤ fuel + i →
      locAux t lasti fuel i bc ln loc ≠ Except.error Fault.fuel := by
  intro fuel
  induction fuel with
  | zero =>
    intro i bc ln loc hf
    have h : ¬ i < t.length := by omega
    simp [locAux, h]
  | succ fuel ih =>
    intro i bc ln loc hf
    simp only [locAux]
    by_cases h : i < t.length
    · rw [if_pos h]
      rcases step_cases t i ln loc h with hs | ⟨i1, bcAdd, ln1, loc1, hs, hmono⟩
      · simp [hs]
      · simp only [hs]
        split
        · simp
        · exact ih (i1 + 1) (bc + bcAdd) ln1 loc1 (by omega)
    · simp [h]

/-- `inferLocation` never reads a byte past the end of the table. -/
theorem inferLocation_no_oob (t : List Nat) (firstlineno lasti : Int) :
    inferLocation t firstlineno lasti ≠ Except.error Fault.oob := by
  unfold inferLocation
  cases hr : locAux t lasti t.length 0 0 (u32 firstlineno) ⟨0, 0, 0, 0⟩ with
  | error e =>
    intro hcontra
    have : e = Fault.oob := by
      simp only [hr] at hcontra
      exact (Except.error.injEq _ _).mp hcontra
    exact locAux_no_oob t lasti t.length 0 0 (u32 firstlineno) ⟨0, 0, 0, 0⟩ (this ▸ hr)
  | ok p => simp [hr]

/-- `inferLocation` never exhausts its fuel: the fuel `t.length` given by the
entry point always suffices. -/
theorem inferLocation_no_fuel (t : List Nat) (firstlineno lasti : Int) :
    inferLocation t firstlineno lasti ≠ Except.error Fault.fuel := by
  unfold inferLocation
  cases hr : locAux t lasti t.length 0 0 (u32 firstlineno) ⟨0, 0, 0, 0⟩ with
  | error e =>
    intro hcontra
    have : e = Fault.fuel := by
      simp only [hr] at hcontra
      exact (Except.error.injEq _ _).mp hcontra
    exact locAux_no_fuel t lasti t.length 0 0 (u32 firstlineno) ⟨0, 0, 0, 0⟩
      (by omega) (this ▸ hr)
  | ok p => simp [hr]

/-- Round-trip of a small nonnegative `int` through the `unsigned int`
running `lineno` and back. -/
theorem toInt32_u32 (fl : Int) (h0 : 0 ≤ fl) (h1 : fl < 2147483648) :
    toInt32 (u32 fl) = fl := by
  simp only [toInt32, u32]
  split
  · omega
  · omega

/-- As `toInt32_u32`, after one in-range increment of the `unsigned int`. -/
theorem toInt32_u32_succ (fl : Int) (h0 : 0 ≤ fl) (h1 : fl + 1 < 2147483648) :
    toInt32 ((u32 fl + 1) % 4294967296) = fl + 1 := by
  simp only [toInt32, u32]
  split
  · omega
  · omega

/-- Claim C1, counterexample.  The table `[0x70]` holds a single long-form
(kind 14) entry whose four variable-length-integer fields all lie beyond the
table's declared size, yet decoding succeeds (the truncated varints silently
decode to 0) instead of throwing `LocationError` as the claim requires. -/
theorem C1_counterexample : inferLocation [0x70] 5 0 = Except.ok ⟨5, 5, 0, 0⟩ := by decide

/-- Claim C1, amended.  In the variable-length-integer generation decoding
never reads a byte past the table's end, and entries of kinds 10-12 and the
default short form whose trailing bytes are missing throw `LocationError`;
but a long-form (kind 14) entry whose varint fields are truncated decodes
silently to 0 instead of throwing, and in the legacy and delta-pair
generations a trailing unpaired byte causes a read one byte past the table's
end. -/
theorem C1_amended :
    (∀ (t : List Nat) (firstlineno lasti : Int),
      inferLocation t firstlineno lasti ≠ Except.error Fault.oob) ∧
    inferLocation [0x50] 9 0 = Except.error Fault.locationError ∧
    inferLocation [0x08] 9 0 = Except.error Fault.locationError ∧
    inferLocation [0x70] 7 0 = Except.ok ⟨7, 7, 0, 0⟩ ∧
    inferLocationLegacy [2] 5 4 = Except.error Fault.oob ∧
    inferLocation310 [5] 3 9 = Except.error Fault.oob :=
  ⟨fun t fl lasti => inferLocation_no_oob t fl lasti,
   by decide, by decide, by decide, by decide, by decide⟩

/-- Claim C2, counterexample.  The single byte `0x00` is not a no-op entry:
its kind is 0, the default short form, which requires a trailing byte, so
decoding the table `[0x00]` at offset 0 throws `LocationError` instead of
succeeding with the first line number. -/
theorem C2_counterexample : inferLocation [0x00] 7 0 = Except.error Fault.locationError := by
  decide

/-- Claim C2, amended.  Decoding the table `[0x00]` at offset 0 throws
`LocationError` (kind 0 is a short form needing a trailing byte); the actual
no-op entry is kind 15 (byte `0x78`), whose single-byte table decodes at
offset 0 to line = the code object's first line number with columns 0. -/
theorem C2_amended (fl : Int) (h0 : 0 ≤ fl) (h1 : fl < 2147483648) :
    inferLocation [0x00] fl 0 = Except.error Fault.locationError ∧
    inferLocation [0x78] fl 0 = Except.ok ⟨fl, fl, 0, 0⟩ := by
  constructor
  · rfl
  · have : inferLocation [0x78] fl 0 =
        Except.ok ⟨toInt32 (u32 fl), toInt32 (u32 fl), 0, 0⟩ := rfl
    rw [this, toInt32_u32 fl h0 h1]

/-- Witness for the amended claim C2 at first line number 7. -/
theorem C2_amended_witness :
    inferLocation [0x00] 7 0 = Except.error Fault.locationError ∧
    inferLocation [0x78] 7 0 = Except.ok ⟨7, 7, 0, 0⟩ :=
  C2_amended 7 (by norm_num) (by norm_num)

/-- Claim C3, counterexample.  The legacy table `[0x02, 0x01]` queried at
bytecode offset 0 yields the first line number unchanged (the loop breaks on
`bc > lasti` before applying the line delta), not `first_lineno + 1` as the
claim states. -/
theorem C3_counterexample :
    inferLocationLegacy [2, 1] 5 0 = Except.ok ⟨5, 5, 0, 0⟩ ∧
    inferLocationLegacy [2, 1] 5 0 ≠ Except.ok ⟨6, 6, 0, 0⟩ := by decide

/-- Claim C3, amended.  The legacy table `[0x02, 0x01]` queried at offset 0
yields `lineno = first_lineno`; the `+1` line delta only applies from
bytecode offset 2 onwards, where the query yields `first_lineno + 1`. -/
theorem C3_amended (fl : Int) (h0 : 0 ≤ fl) (h1 : fl + 1 < 2147483648) :
    inferLocationLegacy [2, 1] fl 0 = Except.ok ⟨fl, fl, 0, 0⟩ ∧
    inferLocationLegacy [2, 1] fl 2 = Except.ok ⟨fl + 1, fl + 1, 0, 0⟩ := by
  constructor
  · have : inferLocationLegacy [2, 1] fl 0 =
        Except.ok ⟨toInt32 (u32 fl), toInt32 (u32 fl), 0, 0⟩ := rfl
    rw [this, toInt32_u32 fl h0 (by omega)]
  · have : inferLocationLegacy [2, 1] fl 2 =
        Except.ok ⟨toInt32 ((u32 fl + 1) % 4294967296),
                   toInt32 ((u32 fl + 1) % 4294967296), 0, 0⟩ := rfl
    rw [this, toInt32_u32_succ fl h0 h1]

/-- Witness for the amended claim C3 at first line number 5. -/
theorem C3_amended_witness :
    inferLocationLegacy [2, 1] 5 0 = Except.ok ⟨5, 5, 0, 0⟩ ∧
    inferLocationLegacy [2, 1] 5 2 = Except.ok ⟨6, 6, 0, 0⟩ :=
  C3_amended 5 (by norm_num) (by norm_num)

/-- Claim C4, counterexample.  A long-form (kind 14) entry storing column 5
and end column 7 surfaces columns 0 in the resolved location (the assignment
after the decoding loop overwrites them), and even the in-loop location holds
the raw stored values 5 and 7, not the 1-based 6 and 8 the claim requires. -/
theorem C4_counterexample :
    inferLocation [0x70, 0, 0, 5, 7] 3 0 = Except.ok ⟨3, 3, 0, 0⟩ ∧
    inferLocationPre [0x70, 0, 0, 5, 7] 3 0 = Except.ok ⟨3, 3, 5, 7⟩ := by decide

/-- Claim C4, amended.  The column and column_end values surfaced in the
resolved Frame are always 0, for every entry kind: the assignment following
the decoding loop in `Frame::infer_location` overwrites the in-loop column
data (which is one greater than the stored bytes for kinds 10-12 and the
default short form, but the raw varint values for the long form). -/
theorem C4_amended (t : List Nat) (firstlineno lasti : Int) (loc : Location)
    (h : inferLocation t firstlineno lasti = Except.ok loc) :
    loc.column = 0 ∧ loc.column_end = 0 := by
  unfold inferLocation at h
  cases hr : locAux t lasti t.length 0 0 (u32 firstlineno) ⟨0, 0, 0, 0⟩ with
  | error e => rw [hr] at h; cases h
  | ok p =>
    rw [hr] at h
    cases h
    exact ⟨rfl, rfl⟩

/-- Witness for the amended claim C4 on a concrete long-form table. -/
theorem C4_amended_witness :
    inferLocation [0x70, 0, 0, 5, 7] 11 0 = Except.ok ⟨11, 11, 0, 0⟩ ∧
    ((⟨11, 11, 0, 0⟩ : Location).column = 0 ∧ (⟨11, 11, 0, 0⟩ : Location).column_end = 0) :=
  ⟨by decide, C4_amended [0x70, 0, 0, 5, 7] 11 0 ⟨11, 11, 0, 0⟩ (by decide)⟩

/-- The `while (integer)` loop of `MojoRenderer::integer` (render.h): emits
7-bit groups, least significant first, setting bit 7 of a byte when more
groups follow.  Fuel is one unit per emitted byte; ten units cover any
64-bit magnitude (6 + 9 * 7 > 64 bits). -/
def mojoChunks : Nat → Nat → List Nat
  | 0, _ => []
  | fuel + 1, m =>
    if m = 0 then []
    else
      let byte := m &&& 127
      let m1 := m >>> 7
      (if m1 ≠ 0 then byte ||| 128 else byte) :: mojoChunks fuel m1

/-- `MojoRenderer::integer` (render.h): sign-and-magnitude variable-length
encoding.  The first byte holds the 6 low magnitude bits, bit 6 as the sign
and bit 7 as the continuation flag; later bytes hold 7 magnitude bits and a
continuation flag.  `mojo_int_t`/`mojo_uint_t` come from the absent mojo.h;
they are 64-bit integer types, modelled as `Int`/`Nat` (the magnitudes in
every claim are far below 2^63, where the two agree). -/
def mojoInteger (n : Int) : List Nat :=
  let mag : Nat := n.natAbs
  let b0 := mag &&& 63
  let b1 := if n < 0 then b0 ||| 64 else b0
  let m := mag >>> 6
  let b2 := if m ≠ 0 then b1 ||| 128 else b1
  b2 :: mojoChunks 10 m

/-- Modelled from the spec: the decoder for the trace encoder's integer form
is not part of this repository; section 4.4 describes it as reassembling the
magnitude least-significant-chunk-first from the 7-bit groups of the
continuation bytes.  Returns `none` on a malformed stream (missing
continuation byte or trailing garbage). -/
def mojoDecodeCont : List Nat → Nat → Nat → Option Nat
  | [], _, _ => none
  | b :: rest, shift, acc =>
    let acc1 := acc + (b % 128) * 2 ^ shift
    if 128 ≤ b then mojoDecodeCont rest (shift + 7) acc1
    else if rest = [] then some acc1 else none

/-- Modelled from the spec: decoding of the trace encoder's sign-and-magnitude
variable-length integer form (section 4.4): the first byte carries 6
magnitude bits, a sign bit (bit 6) and a continuation bit (bit 7); the
reassembled magnitude is negated if the sign bit was set. -/
def mojoDecode : List Nat → Option Int
  | [] => none
  | b0 :: rest =>
    let mag0 := b0 % 64
    let neg := 64 ≤ b0 % 128
    let magOpt : Option Nat :=
      if 128 ≤ b0 then mojoDecodeCont rest 6 mag0
      else if rest = [] then some mag0 else none
    match magOpt with
    | none => none
    | some m => some (if neg then -(m : Int) else (m : Int))

/-- A zero magnitude emits no continuation bytes. -/
theorem mojoChunks_zero : ∀ fuel, mojoChunks fuel 0 = [] := by
  intro fuel
  cases fuel with
  | zero => rfl
  | succ fuel => rfl

/-- Setting the continuation bit on a 7-bit group adds 128. -/
theorem or128_eq_add : ∀ x < 128, x ||| 128 = x + 128 := by decide

/-- Setting the sign bit on a 6-bit group adds 64. -/
theorem or64_eq_add : ∀ x < 64, x ||| 64 = x + 64 := by decide

/-- Decoding the continuation bytes of a nonzero magnitude recovers it,
shifted into place and added to the accumulator. -/
theorem mojoDecodeCont_chunks :
    ∀ (fuel m shift acc : Nat), m ≠ 0 → m < 2 ^ (7 * fuel) →
      mojoDecodeCont (mojoChunks fuel m) shift acc = some (acc + m * 2 ^ shift) := by
  intro fuel
  induction fuel with
  | zero =>
    intro m shift acc hm hlt
    simp at hlt
    omega
  | succ fuel ih =>
    intro m shift acc hm hlt
    have hand : m &&& 127 = m % 128 := by
      have h127 : (127 : Nat) = 2 ^ 7 - 1 := rfl
      rw [h127, Nat.and_pow_two_sub_one_eq_mod]
    have hshift7 : m >>> 7 = m / 128 := by
      rw [Nat.shiftRight_eq_div_pow]
    have hmod : m % 128 < 128 := Nat.mod_lt m (by norm_num)
    by_cases hm1 : m >>> 7 = 0
    · have hsmall : m < 128 := by omega
      have hchunks : mojoChunks (fuel + 1) m = [m % 128] := by
        simp only [mojoChunks, hm, if_neg hm, hand, hm1]
        simp [mojoChunks_zero]
      rw [hchunks]
      have hmm : m % 128 = m := Nat.mod_eq_of_lt hsmall
      simp only [mojoDecodeCont, hmm]
      rw [if_neg (by omega : ¬ 128 ≤ m)]
      simp
    · have hchunks : mojoChunks (fuel + 1) m =
          (m % 128 + 128) :: mojoChunks fuel (m >>> 7) := by
        simp only [mojoChunks, if_neg hm, hand, if_pos hm1]
        rw [or128_eq_add (m % 128) hmod]
      rw [hchunks]
      simp only [mojoDecodeCont]
      rw [if_pos (by omega : 128 ≤ m % 128 + 128)]
      have hmod2 : (m % 128 + 128) % 128 = m % 128 := by omega
      rw [hmod2]
      have hdiv : m / 128 < 2 ^ (7 * fuel) := by
        have : m < 2 ^ (7 * fuel) * 128 := by
          have h7 : 7 * (fuel + 1) = 7 * fuel + 7 := by ring
          rw [h7, pow_add] at hlt
          simpa using hlt
        omega
      rw [hshift7] at hm1 ⊢
      rw [ih (m / 128) (shift + 7) (acc + m % 128 * 2 ^ shift) hm1 hdiv]
      congr 1
      have hsplit : m % 128 + 128 * (m / 128) = m := Nat.mod_add_div m 128
      conv_rhs => rw [← hsplit]
      rw [pow_add]
      ring

/-- Decoding a single byte without its continuation bit. -/
theorem mojoDecode_single (b : Nat) (hb : ¬ 128 ≤ b) :
    mojoDecode [b] =
      some (if 64 ≤ b % 128 then -((b % 64 : Nat) : Int) else ((b % 64 : Nat) : Int)) := by
  simp only [mojoDecode]
  rw [if_neg hb]
  simp

/-- Decoding a first byte with its continuation bit set, given the decoded
continuation magnitude. -/
theorem mojoDecode_cons (b : Nat) (rest : List Nat) (hb : 128 ≤ b) (m : Nat)
    (hrest : mojoDecodeCont rest 6 (b % 64) = some m) :
    mojoDecode (b :: rest) = some (if 64 ≤ b % 128 then -(m : Int) else (m : Int)) := by
  simp only [mojoDecode]
  rw [if_pos hb, hrest]

/-- Claim C9.  For every integer in `[-2^40, 2^40]`, encoding with
`MojoRenderer::integer` and decoding the produced bytes (reassembling the
magnitude least-significant-chunk-first and negating if the sign bit was
set) recovers exactly the integer, including 0 and the boundary values. -/
theorem C9_varint_roundtrip (n : Int) (h0 : -(2 ^ 40) ≤ n) (h1 : n ≤ 2 ^ 40) :
    mojoDecode (mojoInteger n) = some n := by
  have hand63 : n.natAbs &&& 63 = n.natAbs % 64 := by
    have h63 : (63 : Nat) = 2 ^ 6 - 1 := rfl
    rw [h63, Nat.and_pow_two_sub_one_eq_mod]
  have hsh6 : n.natAbs >>> 6 = n.natAbs / 64 := by
    rw [Nat.shiftRight_eq_div_pow]
  have hm64 : n.natAbs % 64 < 64 := Nat.mod_lt _ (by norm_num)
  by_cases hm : n.natAbs / 64 = 0
  · have hsmall : n.natAbs < 64 := by omega
    have hmm : n.natAbs % 64 = n.natAbs := Nat.mod_eq_of_lt hsmall
    by_cases hneg : n < 0
    · have henc : mojoInteger n = [n.natAbs + 64] := by
        simp only [mojoInteger, hand63, hsh6, hm, if_pos hneg, hmm]
        simp [mojoChunks_zero, or64_eq_add n.natAbs hsmall]
      rw [henc, mojoDecode_single _ (by omega)]
      rw [if_pos (by omega : 64 ≤ (n.natAbs + 64) % 128)]
      have hv : (n.natAbs + 64) % 64 = n.natAbs := by omega
      rw [hv]
      congr 1
      omega
    · have henc : mojoInteger n = [n.natAbs] := by
        simp only [mojoInteger, hand63, hsh6, hm, if_neg hneg, hmm]
        simp [mojoChunks_zero]
      rw [henc, mojoDecode_single _ (by omega)]
      rw [if_neg (by omega : ¬ 64 ≤ n.natAbs % 128)]
      have hv : n.natAbs % 64 = n.natAbs := by omega
      rw [hv]
      congr 1
      omega
  · have hmlt : n.natAbs / 64 < 2 ^ (7 * 10) := by
      have hle : n.natAbs ≤ 2 ^ 40 := by omega
      have h70 : (2 : Nat) ^ 40 < 2 ^ (7 * 10) * 64 := by norm_num
      omega
    by_cases hneg : n < 0
    · have henc : mojoInteger n =
          (n.natAbs % 64 + 64 + 128) :: mojoChunks 10 (n.natAbs / 64) := by
        simp only [mojoInteger, hand63, hsh6, hm, if_pos hneg]
        rw [if_pos hm, or64_eq_add (n.natAbs % 64) hm64,
          or128_eq_add (n.natAbs % 64 + 64) (by omega)]
      rw [henc, mojoDecode_cons _ _ (by omega) (n.natAbs % 64 + n.natAbs / 64 * 2 ^ 6)
        (by
          have hb : (n.natAbs % 64 + 64 + 128) % 64 = n.natAbs % 64 := by omega
          rw [hb]
          exact mojoDecodeCont_chunks 10 (n.natAbs / 64) 6 (n.natAbs % 64) hm hmlt)]
      rw [if_pos (by omega : 64 ≤ (n.natAbs % 64 + 64 + 128) % 128)]
      have hsum : n.natAbs % 64 + n.natAbs / 64 * 2 ^ 6 = n.natAbs := by
        have h64 : (2 : Nat) ^ 6 = 64 := by norm_num
        rw [h64]
        omega
      rw [hsum]
      congr 1
      omega
    · have henc : mojoInteger n =
          (n.natAbs % 64 + 128) :: mojoChunks 10 (n.natAbs / 64) := by
        simp only [mojoInteger, hand63, hsh6, hm, if_neg hneg]
        rw [if_pos hm, or128_eq_add (n.natAbs % 64) (by omega)]
      rw [henc, mojoDecode_cons _ _ (by omega) (n.natAbs % 64 + n.natAbs / 64 * 2 ^ 6)
        (by
          have hb : (n.natAbs % 64 + 128) % 64 = n.natAbs % 64 := by omega
          rw [hb]
          exact mojoDecodeCont_chunks 10 (n.natAbs / 64) 6 (n.natAbs % 64) hm hmlt)]
      rw [if_neg (by omega : ¬ 64 ≤ (n.natAbs % 64 + 128) % 128)]
      have hsum : n.natAbs % 64 + n.natAbs / 64 * 2 ^ 6 = n.natAbs := by
        have h64 : (2 : Nat) ^ 6 = 64 := by norm_num
        rw [h64]
        omega
      rw [hsum]
      congr 1
      omega

/-- Witness for claim C9 at the values -5, 0 and the sign boundary -2^40. -/
theorem C9_varint_roundtrip_witness :
    mojoDecode (mojoInteger (-5)) = some (-5) ∧
    mojoDecode (mojoInteger 0) = some 0 ∧
    mojoDecode (mojoInteger (-(2 ^ 40))) = some (-(2 ^ 40)) :=
  ⟨C9_varint_roundtrip (-5) (by norm_num) (by norm_num),
   C9_varint_roundtrip 0 (by norm_num) (by norm_num),
   C9_varint_roundtrip (-(2 ^ 40)) (by norm_num) (by norm_num)⟩

/-- Association-list lookup, first match wins (the model of the
`std::unordered_map` underlying `StringTable` and of the cache index). -/
def assocFind {β : Type} : List (Nat × β) → Nat → Option β
  | [], _ => none
  | (k, v) :: rest, a => if k = a then some v else assocFind rest a

/-- A foreign `PyUnicodeObject` snapshot as `pyunicode_to_utf8` (strings.h)
sees it: the outcome of the metadata `copy_type`, the `kind` and `compact`
state bits, the NULL-ness of the non-compact `utf8` pointer, the selected
length (`ascii.length` when compact, else `utf8_length`; a `Py_ssize_t`),
the outcome of the `copy_generic` byte copy, and the text those bytes
hold. -/
structure UnicodeObj where
  metaCopyFails : Bool
  kind : Nat
  compact : Bool
  dataNull : Bool
  length : Int
  byteCopyFails : Bool
  text : String
deriving DecidableEq, Repr

/-- `pyunicode_to_utf8` (strings.h), instrumented with the number of foreign
memory reads attempted (the `copy_type` of the object header and the
`copy_generic` of the character data count one each).  An `Except.error`
models a thrown `StringError`. -/
def pyunicodeToUtf8 (o : UnicodeObj) : Except Unit String × Nat :=
  if o.metaCopyFails then (Except.error (), 1)
  else if o.kind ≠ 1 then (Except.error (), 1)
  else if !o.compact && o.dataNull then (Except.error (), 1)
  else if o.length < 0 ∨ o.length > 1024 then (Except.error (), 1)
  else if o.byteCopyFails then (Except.error (), 2)
  else (Except.ok o.text, 2)

/-- `StringTable::key(PyObject *)` of strings.h for a text object, in the
`PY_VERSION_HEX < 0x030c0000` branch (`str = pyunicode_to_utf8(s);` — on
3.12 a failed boxed-integer attempt falls back to the same call): if the
address already has an entry its key is returned with no foreign read,
otherwise the unicode object is decoded and stored; a `StringError` is
rethrown as `StringTable::Error` and leaves the table unchanged.  Returns
the result, the updated table and the number of foreign reads performed. -/
def stKey (st : List (Nat × String)) (addr : Nat) (o : UnicodeObj) :
    Except Unit Nat × List (Nat × String) × Nat :=
  match assocFind st addr with
  | some _ => (Except.ok addr, st, 0)
  | none =>
    match pyunicodeToUtf8 o with
    | (Except.error _, r) => (Except.error (), st, r)
    | (Except.ok s, r) => (Except.ok addr, (addr, s) :: st, r)

/-- `pyunicode_to_utf8` can only fail or succeed in these three shapes: an
early failure after the header copy, a failure or success after both
reads. -/
theorem pyunicode_cases (o : UnicodeObj) :
    pyunicodeToUtf8 o = (Except.error (), 1) ∨
    pyunicodeToUtf8 o = (Except.error (), 2) ∨
    pyunicodeToUtf8 o = (Except.ok o.text, 2) := by
  unfold pyunicodeToUtf8
  split
  · exact Or.inl rfl
  · split
    · exact Or.inl rfl
    · split
      · exact Or.inl rfl
      · split
        · exact Or.inl rfl
        · split
          · exact Or.inr (Or.inl rfl)
          · exact Or.inr (Or.inr rfl)

/-- A declared length that is negative or above the 1024-byte ceiling makes
`pyunicode_to_utf8` fail, whatever the other fields. -/
theorem pyunicode_err_of_len (o : UnicodeObj) (hlen : o.length < 0 ∨ 1024 < o.length) :
    (pyunicodeToUtf8 o).1 = Except.error () := by
  unfold pyunicodeToUtf8
  repeat' split
  all_goals rfl

/-- Claim C6.  Interning a foreign text object whose declared length is
negative or exceeds the 1024-byte ceiling fails with a string-resolution
error (`StringTable::Error`) and leaves the string table unchanged: no
entry, partial or otherwise, is added under the address's key. -/
theorem C6_oversized_intern (st : List (Nat × String)) (addr : Nat) (o : UnicodeObj)
    (habs : assocFind st addr = none) (hlen : o.length < 0 ∨ 1024 < o.length) :
    (stKey st addr o).1 = Except.error () ∧ (stKey st addr o).2.1 = st := by
  have herr := pyunicode_err_of_len o hlen
  unfold stKey
  rw [habs]
  cases hp : pyunicodeToUtf8 o with
  | mk res r =>
    rw [hp] at herr
    simp only at herr
    subst herr
    exact ⟨rfl, rfl⟩

/-- Witness for claim C6: a fresh table and a compact text object claiming
2000 bytes. -/
theorem C6_oversized_intern_witness :
    assocFind ([] : List (Nat × String)) 5 = none ∧
    (((2000 : Int) < 0 ∨ 1024 < (2000 : Int)) ∧
      ((stKey [] 5 ⟨false, 1, true, false, 2000, false, "x"⟩).1 = Except.error () ∧
       (stKey [] 5 ⟨false, 1, true, false, 2000, false, "x"⟩).2.1 = [])) :=
  ⟨by decide, by norm_num,
   C6_oversized_intern [] 5 ⟨false, 1, true, false, 2000, false, "x"⟩ (by decide) (by norm_num)⟩

/-- Claim C7, counterexample.  Interning the same foreign address twice
yields the same key both times, but the two calls together perform two
underlying foreign-memory reads (the first call's `copy_type` of the object
header and `copy_generic` of the character data), not exactly one as the
claim states. -/
theorem C7_counterexample :
    (stKey [] 5 ⟨false, 1, true, false, 3, false, "abc"⟩).1 = Except.ok 5 ∧
    (stKey (stKey [] 5 ⟨false, 1, true, false, 3, false, "abc"⟩).2.1 5
      ⟨false, 1, true, false, 3, false, "abc"⟩).1 = Except.ok 5 ∧
    (stKey [] 5 ⟨false, 1, true, false, 3, false, "abc"⟩).2.2 +
      (stKey (stKey [] 5 ⟨false, 1, true, false, 3, false, "abc"⟩).2.1 5
        ⟨false, 1, true, false, 3, false, "abc"⟩).2.2 = 2 ∧
    ¬((stKey [] 5 ⟨false, 1, true, false, 3, false, "abc"⟩).2.2 +
      (stKey (stKey [] 5 ⟨false, 1, true, false, 3, false, "abc"⟩).2.1 5
        ⟨false, 1, true, false, 3, false, "abc"⟩).2.2 = 1) := by decide

/-- Claim C7, amended.  Interning the same foreign address twice yields the
same StringKey both times; the first call performs exactly two primitive
foreign-memory reads (the metadata copy and the byte copy) and stores the
entry, and the second call returns the existing key with zero foreign
reads and the table unchanged. -/
theorem C7_amended (st : List (Nat × String)) (addr : Nat) (o : UnicodeObj) (s : String)
    (habs : assocFind st addr = none) (hok : (pyunicodeToUtf8 o).1 = Except.ok s) :
    stKey st addr o = (Except.ok addr, (addr, s) :: st, 2) ∧
    stKey ((addr, s) :: st) addr o = (Except.ok addr, (addr, s) :: st, 0) := by
  rcases pyunicode_cases o with h | h | h
  · rw [h] at hok
    cases hok
  · rw [h] at hok
    cases hok
  · rw [h] at hok
    simp only [Except.ok.injEq] at hok
    subst hok
    constructor
    · unfold stKey
      rw [habs, h]
    · unfold stKey
      simp [assocFind]

/-- Witness for the amended claim C7 on a fresh table. -/
theorem C7_amended_witness :
    stKey [] 5 ⟨false, 1, true, false, 3, false, "abc"⟩ = (Except.ok 5, [(5, "abc")], 2) ∧
    stKey [(5, "abc")] 5 ⟨false, 1, true, false, 3, false, "abc"⟩ =
      (Except.ok 5, [(5, "abc")], 0) :=
  C7_amended [] 5 ⟨false, 1, true, false, 3, false, "abc"⟩ "abc" (by decide) (by decide)

/-- A MOJO stream record, abstracted to the record level: `MojoRenderer::frame`
and `MojoRenderer::string` (render.h) emit these as tagged byte events;
the fields here are the record's key and payload. -/
inductive Event where
  | frame (key fn nm : Nat) (line line_end column column_end : Int)
  | str (key : Nat) (value : String)
deriving DecidableEq, Repr

/-- The resolved `Frame` of frame.h: cache key, interned filename and name
string keys, location, and the entry flag. -/
structure FrameRec where
  cache_key : Nat
  filename : Nat
  name : Nat
  location : Location
  is_entry : Bool
deriving DecidableEq, Repr

/-- Modelled from the spec: cache.h (the `LRUCache` used as `frame_cache`) is
not under src/.  Section 3 specifies a capacity-bounded map whose successful
lookup promotes the entry to most-recently-used and whose store at capacity
evicts the least-recently-used entry.  Modelled as an association list
ordered from most- to least-recently-used; this finds an entry without
promoting. -/
def cacheFind (c : List (Nat × FrameRec)) (k : Nat) : Option FrameRec :=
  assocFind c k

/-- Modelled from the spec: `LRUCache::lookup` — a hit returns the entry and
the promoted recency order; a miss is the `LookupError` branch. -/
def cacheLookup (c : List (Nat × FrameRec)) (k : Nat) :
    Option (FrameRec × List (Nat × FrameRec)) :=
  match assocFind c k with
  | none => none
  | some f => some (f, (k, f) :: c.filter (fun p => p.1 != k))

/-- Modelled from the spec: `LRUCache::store` — insert as most recent and
evict the least-recently-used entry beyond the capacity. -/
def cacheStore (cap : Nat) (c : List (Nat × FrameRec)) (k : Nat) (f : FrameRec) :
    List (Nat × FrameRec) :=
  ((k, f) :: c).take cap

/-- In-place update of a cached frame through the reference returned by
`lookup` (the C++ mutates the cached object directly). -/
def cacheUpdate (c : List (Nat × FrameRec)) (k : Nat) (f : FrameRec) :
    List (Nat × FrameRec) :=
  c.map (fun p => if p.1 = k then (k, f) else p)

/-- The process-wide mutable state touched by frame resolution: the string
table, the frame cache with its fixed capacity, and the MOJO records
emitted so far. -/
structure SysState where
  strings : List (Nat × String)
  cap : Nat
  cache : List (Nat × FrameRec)
  events : List Event
deriving DecidableEq, Repr

/-- The string table as the `StringTable` constructor (strings.h) leaves it:
key 0 maps to the empty string, `INVALID = 1` to `"<invalid>"` and
`UNKNOWN = 2` to `"<unknown>"`. -/
def initStrings : List (Nat × String) :=
  [(0, ""), (1, "<invalid>"), (2, "<unknown>")]

/-- A foreign `PyCodeObject` snapshot as `Frame::get(PyCodeObject *, int)`
needs it: whether the initial `copy_type` of the code object fails, the
object's address, the addresses and contents of `co_filename` and
`co_qualname`, `co_firstlineno`, and the `co_linetable` bytes (`none`
models a failing `pybytes_to_bytes_and_size`). -/
structure CodeObj where
  copyFails : Bool
  addr : Nat
  filename_addr : Nat
  filenameObj : UnicodeObj
  qualname_addr : Nat
  qualnameObj : UnicodeObj
  firstlineno : Int
  linetable : Option (List Nat)
deriving DecidableEq, Repr

/-- `Frame::key(PyCodeObject *, int)` of frame.h:
`((code & MOJO_INT32) << 16) | lasti`.  `MOJO_INT32` comes from the absent
mojo.h; per the spec (section 4.4) reference keys are masked to a fixed
32-bit range, so it is `2^32 - 1`.  `lasti` is nonnegative in the uses
modelled here. -/
def frameKey (code_addr : Nat) (lasti : Nat) : Nat :=
  ((code_addr &&& 4294967295) <<< 16) ||| lasti

/-- Outcome of `Frame::get`: a resolved or cached frame (returned by
reference in the C++), one of the two sentinel frames, or an exception
escaping the call. -/
inductive GetResult where
  | ok (f : FrameRec)
  | invalid
  | unknown
  | thrown
deriving DecidableEq, Repr

/-- `Frame::get(PyCodeObject *code_addr, int lasti)` of frame.h: copy the
code object (failure returns `INVALID_FRAME`); a cache hit returns the
cached frame; on a miss the `Frame(code, lasti)` constructor interns
filename and qualname and decodes the location table — a failure anywhere
is caught as `Frame::Error` and returns `INVALID_FRAME` with nothing
emitted or stored (string-table entries interned before the failure
remain) — then `mojo.frame(...)` emits the frame record and the frame is
stored in the cache. -/
def frameGetCode (s : SysState) (co : CodeObj) (lasti : Nat) : GetResult × SysState :=
  if co.copyFails then (GetResult.invalid, s)
  else
    match cacheLookup s.cache (frameKey co.addr lasti) with
    | some (f, c1) => (GetResult.ok f, { s with cache := c1 })
    | none =>
      match stKey s.strings co.filename_addr co.filenameObj with
      | (Except.error _, st1, _) => (GetResult.invalid, { s with strings := st1 })
      | (Except.ok fn, st1, _) =>
        match stKey st1 co.qualname_addr co.qualnameObj with
        | (Except.error _, st2, _) => (GetResult.invalid, { s with strings := st2 })
        | (Except.ok nm, st2, _) =>
          match co.linetable with
          | none => (GetResult.invalid, { s with strings := st2 })
          | some tbl =>
            match inferLocation tbl co.firstlineno (lasti : Int) with
            | Except.error _ => (GetResult.invalid, { s with strings := st2 })
            | Except.ok loc =>
              let f : FrameRec :=
                { cache_key := frameKey co.addr lasti, filename := fn, name := nm,
                  location := loc, is_entry := false }
              (GetResult.ok f,
                { strings := st2, cap := s.cap,
                  cache := cacheStore s.cap s.cache (frameKey co.addr lasti) f,
                  events := s.events ++
                    [Event.frame (frameKey co.addr lasti) fn nm
                      loc.line loc.line_end loc.column loc.column_end] })

/-- A native unwinding cursor as `Frame::get(unw_cursor_t &)` and
`StringTable::key(unw_cursor_t &)` (strings.h) observe it: the program
counter from `unw_get_reg`, the outcome of `unw_get_proc_info` with the
symbol's start address, the outcome of `unw_get_proc_name` with the symbol
text, and the demangling outcome for `_Z`-mangled names. -/
structure Cursor where
  pc : Nat
  procInfoFails : Bool
  startIp : Nat
  procNameFails : Bool
  sym : String
  demangleOk : Bool
  demangled : String
deriving DecidableEq, Repr

/-- `StringTable::key(unw_word_t)` of strings.h: keys by the program counter
and stores a `"native@<pc>"` placeholder (the `snprintf` `%p` rendering of
the address is abstracted as decimal rendering); never fails. -/
def stKeyPC (st : List (Nat × String)) (pc : Nat) : Nat × List (Nat × String) :=
  match assocFind st pc with
  | some _ => (pc, st)
  | none => (pc, (pc, "native@" ++ toString pc) :: st)

/-- `StringTable::key(unw_cursor_t &)` of strings.h: throws when
`unw_get_proc_info` fails; keys by the symbol's start address; on a miss it
throws when `unw_get_proc_name` fails, otherwise stores the (demangled when
possible) symbol name. -/
def stKeyCursor (st : List (Nat × String)) (c : Cursor) :
    Except Unit (Nat × List (Nat × String)) :=
  if c.procInfoFails then Except.error ()
  else
    match assocFind st c.startIp with
    | some _ => Except.ok (c.startIp, st)
    | none =>
      if c.procNameFails then Except.error ()
      else
        let nm := if c.sym.startsWith "_Z" && c.demangleOk then c.demangled else c.sym
        Except.ok (c.startIp, (c.startIp, nm) :: st)

/-- `Frame::get(unw_cursor_t &)` of frame.h: a zero program counter throws
`Frame::Error` out of the call; otherwise the pc is the frame key, a cache
hit returns the cached frame, and on a miss the `Frame(cursor, pc)`
constructor interns the `"native@"` filename and the symbol name — a
`StringTable::Error` becomes `Frame::Error`, caught to yield the
`UNKNOWN_FRAME` sentinel (the filename interned before the failure stays in
the table) — then the frame record is emitted and the frame cached. -/
def frameGetCursor (s : SysState) (c : Cursor) : GetResult × SysState :=
  if c.pc = 0 then (GetResult.thrown, s)
  else
    match cacheLookup s.cache c.pc with
    | some (f, c1) => (GetResult.ok f, { s with cache := c1 })
    | none =>
      match stKeyCursor (stKeyPC s.strings c.pc).2 c with
      | Except.error _ => (GetResult.unknown, { s with strings := (stKeyPC s.strings c.pc).2 })
      | Except.ok (nm, st2) =>
        let f : FrameRec :=
          { cache_key := c.pc, filename := (stKeyPC s.strings c.pc).1, name := nm,
            location := ⟨0, 0, 0, 0⟩, is_entry := false }
        (GetResult.ok f,
          { strings := st2, cap := s.cap,
            cache := cacheStore s.cap s.cache c.pc f,
            events := s.events ++
              [Event.frame c.pc (stKeyPC s.strings c.pc).1 nm 0 0 0 0] })

/-- A `_PyInterpreterFrame` snapshot as `Frame::read` (frame.h, 3.11/3.12
branch) uses it: the outcome of the `copy_type`, the `lasti` derived from
`prev_instr` (abstracted as a field, being raw pointer arithmetic), the
version-specific entry bit (`owner == FRAME_OWNED_BY_CSTACK`), and the
`previous` frame pointer. -/
structure IFrameSnap where
  copyFails : Bool
  lasti : Nat
  owner_is_cstack : Bool
  previous : Nat
deriving DecidableEq, Repr

/-- `Frame::read(PyObject *, PyObject **)` of frame.h (3.11/3.12 branch):
copies the interpreter frame (failure throws `Frame::Error`), resolves via
`Frame::get(code, lasti)` (the code object snapshot is a parameter here,
`copy_type` being the collaborator primitive) and, when the result is not
`INVALID_FRAME`, refreshes `is_entry` in the returned cached frame from the
live snapshot; `*prev_addr` is NULL on `INVALID_FRAME`, else the snapshot's
`previous`. -/
def frameRead (s : SysState) (snap : IFrameSnap) (co : CodeObj) :
    (GetResult × Option Nat) × SysState :=
  if snap.copyFails then ((GetResult.thrown, none), s)
  else
    match frameGetCode s co snap.lasti with
    | (GetResult.ok f, s1) =>
      let f1 := { f with is_entry := snap.owner_is_cstack }
      ((GetResult.ok f1, some snap.previous),
        { s1 with cache := cacheUpdate s1.cache f.cache_key f1 })
    | (r, s1) => ((r, none), s1)

/-- True when a string record for `k` occurs in the list. -/
def stringDeclared (evs : List Event) (k : Nat) : Bool :=
  evs.any fun e =>
    match e with
    | Event.str k1 _ => k1 = k
    | _ => false

/-- Protocol well-formedness of a MOJO record stream (spec section 4.4):
every frame record's filename and name string references must have been
declared by an earlier string record.  `done` holds the records already
scanned. -/
def declaredBeforeUse (done : List Event) : List Event → Bool
  | [] => true
  | e :: rest =>
    (match e with
     | Event.frame _ fn nm _ _ _ _ => stringDeclared done fn && stringDeclared done nm
     | Event.str _ _ => true) && declaredBeforeUse (done ++ [e]) rest

/-- A fresh process state: constructor-initialised string table, empty
frame cache, empty stream. -/
def freshState : SysState := ⟨initStrings, 16, [], []⟩

/-- A well-formed foreign code object at address 4096 whose filename
`"file.py"` lives at 8192, qualname `"f"` at 12288, first line 10, and
whose location table is the single no-op byte `0x78`. -/
def sampleCode : CodeObj :=
  ⟨false, 4096, 8192, ⟨false, 1, true, false, 7, false, "file.py"⟩,
   12288, ⟨false, 1, true, false, 1, false, "f"⟩, 10, some [0x78]⟩

/-- Claim C5: the code emits a frame record whose string references were
never declared.  Resolving `sampleCode` from a fresh state interns the
filename and qualname into the string table (both `assocFind` conjuncts)
and emits exactly one MOJO record — the frame record referencing string
keys 8192 and 12288 — with no string-declaration record anywhere in the
stream, so the declare-before-reference protocol invariant is violated
(`StringTable::key` carries a `// TODO: Emit MOJO string signal` comment in
place of the emission). -/
theorem C5_undeclared_refs :
    (frameGetCode freshState sampleCode 0).2.events =
      [Event.frame 268435456 8192 12288 10 10 0 0] ∧
    assocFind (frameGetCode freshState sampleCode 0).2.strings 8192 = some "file.py" ∧
    assocFind (frameGetCode freshState sampleCode 0).2.strings 12288 = some "f" ∧
    declaredBeforeUse [] (frameGetCode freshState sampleCode 0).2.events = false := by
  decide

/-- Claim C8, counterexample.  A cursor whose program counter cannot be
resolved (pc = 0) makes `Frame::get(unw_cursor_t &)` throw `Frame::Error`
out of the call (`if (pc == 0) throw Error();`), instead of returning the
`UNKNOWN_FRAME` sentinel as the claim states. -/
theorem C8_counterexample :
    (frameGetCursor freshState ⟨0, false, 0, false, "f", false, ""⟩).1 = GetResult.thrown ∧
    (frameGetCursor freshState ⟨0, false, 0, false, "f", false, ""⟩).1 ≠ GetResult.unknown := by
  decide

/-- Claim C8, amended.  For a cursor with a nonzero program counter not in
the frame cache whose unwinder cannot produce a symbol (the proc-info call
fails, or the symbol is uninterned and the proc-name call fails),
`Frame::get(cursor)` returns the `UNKNOWN_FRAME` sentinel and no exception
escapes; but when the program counter itself is zero, `Frame::get` throws
`Frame::Error` to its caller. -/
theorem C8_amended (s : SysState) (c : Cursor) (hpc : c.pc ≠ 0)
    (hmiss : assocFind s.cache c.pc = none)
    (hfail : c.procInfoFails = true ∨
      (assocFind (stKeyPC s.strings c.pc).2 c.startIp = none ∧ c.procNameFails = true)) :
    (frameGetCursor s c).1 = GetResult.unknown ∧
    (∀ (s1 : SysState) (c1 : Cursor), c1.pc = 0 →
      (frameGetCursor s1 c1).1 = GetResult.thrown) := by
  constructor
  · unfold frameGetCursor
    rw [if_neg hpc]
    have hlk : cacheLookup s.cache c.pc = none := by
      unfold cacheLookup
      rw [hmiss]
    simp only [hlk]
    have herr : stKeyCursor (stKeyPC s.strings c.pc).2 c = Except.error () := by
      unfold stKeyCursor
      rcases hfail with hpi | ⟨habs2, hpn⟩
      · rw [if_pos hpi]
      · by_cases hpi : c.procInfoFails = true
        · rw [if_pos hpi]
        · rw [if_neg hpi]
          simp only [habs2]
          rw [if_pos hpn]
    simp only [herr]
  · intro s1 c1 h
    unfold frameGetCursor
    rw [if_pos h]

/-- Witness for the amended claim C8: a fresh state and a cursor at pc 5
whose proc-info call fails. -/
theorem C8_amended_witness :
    ((5 : Nat) ≠ 0) ∧
    assocFind freshState.cache 5 = none ∧
    (frameGetCursor freshState ⟨5, true, 7, false, "f", false, ""⟩).1 = GetResult.unknown :=
  ⟨by decide, by decide,
   (C8_amended freshState ⟨5, true, 7, false, "f", false, ""⟩ (by decide) (by decide)
      (Or.inl (by decide))).1⟩

/-- Updating the head entry of the cache and looking it up returns the
updated frame. -/
theorem cacheFind_update_head (rest : List (Nat × FrameRec)) (k : Nat) (f f1 : FrameRec) :
    cacheFind (cacheUpdate ((k, f) :: rest) k f1) k = some f1 := by
  show cacheFind ((if (k, f).1 = k then (k, f1) else (k, f)) ::
      List.map (fun p => if p.1 = k then (k, f1) else p) rest) k = some f1
  rw [if_pos (rfl : (k, f).1 = k)]
  show (if k = k then some f1
      else assocFind (List.map (fun p => if p.1 = k then (k, f1) else p) rest) k) = some f1
  rw [if_pos (rfl : k = k)]

/-- Claim C10.  When the frame identity is already cached (and both foreign
copies succeed), `Frame::read` returns the cached frame with its filename,
name and location unchanged and only `is_entry` refreshed from the live
snapshot, updates the cached entry the same way, and leaves the string
table and the emitted stream untouched.  The hypothesis `hck` is the
invariant that `Frame::get` sets `cache_key` to the storing key. -/
theorem C10_cached_fields_immutable (s : SysState) (snap : IFrameSnap) (co : CodeObj)
    (f : FrameRec)
    (h1 : snap.copyFails = false) (h2 : co.copyFails = false)
    (h3 : assocFind s.cache (frameKey co.addr snap.lasti) = some f)
    (hck : f.cache_key = frameKey co.addr snap.lasti) :
    (frameRead s snap co).1.1 = GetResult.ok { f with is_entry := snap.owner_is_cstack } ∧
    cacheFind (frameRead s snap co).2.cache (frameKey co.addr snap.lasti) =
      some { f with is_entry := snap.owner_is_cstack } ∧
    (frameRead s snap co).2.strings = s.strings ∧
    (frameRead s snap co).2.events = s.events := by
  have hlk : cacheLookup s.cache (frameKey co.addr snap.lasti) =
      some (f, (frameKey co.addr snap.lasti, f) ::
        s.cache.filter (fun p => p.1 != frameKey co.addr snap.lasti)) := by
    unfold cacheLookup
    rw [h3]
  have hget : frameGetCode s co snap.lasti =
      (GetResult.ok f,
       { s with cache := (frameKey co.addr snap.lasti, f) ::
          s.cache.filter (fun p => p.1 != frameKey co.addr snap.lasti) }) := by
    unfold frameGetCode
    rw [if_neg (by simp [h2])]
    simp only [hlk]
  have hrun : frameRead s snap co =
      ((GetResult.ok { f with is_entry := snap.owner_is_cstack }, some snap.previous),
       { s with cache := (cacheUpdate
          ((frameKey co.addr snap.lasti, f) ::
            s.cache.filter (fun p => p.1 != frameKey co.addr snap.lasti))
          f.cache_key { f with is_entry := snap.owner_is_cstack }) }) := by
    unfold frameRead
    rw [if_neg (by simp [h1])]
    simp only [hget]
  rw [hrun]
  refine ⟨rfl, ?_, rfl, rfl⟩
  rw [hck]
  exact cacheFind_update_head _ _ _ _

/-- The cache state for the C10 witness: one frame for code address 4096 at
bytecode offset 3. -/
def cachedFrame : FrameRec := ⟨frameKey 4096 3, 8192, 12288, ⟨10, 10, 0, 0⟩, false⟩

/-- A state whose frame cache already holds `cachedFrame`. -/
def cachedState : SysState := ⟨initStrings, 16, [(frameKey 4096 3, cachedFrame)], []⟩

/-- Witness for claim C10: a repeat lookup of the cached frame refreshes
only `is_entry`. -/
theorem C10_cached_fields_immutable_witness :
    assocFind cachedState.cache (frameKey 4096 3) = some cachedFrame ∧
    (frameRead cachedState ⟨false, 3, true, 77⟩ sampleCode).1.1 =
      GetResult.ok { cachedFrame with is_entry := true } :=
  ⟨by decide,
   (C10_cached_fields_immutable cachedState ⟨false, 3, true, 77⟩ sampleCode cachedFrame
      rfl rfl (by decide) (by decide)).1⟩
